import Mathlib

/-!
Verification development for the single-node proof-of-work blockchain engine
(`blockchain.py`). The chain engine code is embedded shallowly; the external
collaborators (`verification.py`, `walletv2.py`, network transport) are either
abstract function parameters or modelled from the design document.
-/

/-- Mining reward constant (`MINING_REWARD = 1`). -/
def MINING_REWARD : Int := 1

/-- `Transaction`: sender, recipient, amount, signature. Equality is structural
(all four fields). Amounts are modelled as integers. -/
structure Transaction where
  sender : String
  recipient : String
  amount : Int
  signature : String
deriving DecidableEq

/-- `Block`: index, timestamp, ordered transactions, proof nonce, previous hash. -/
structure Block where
  index : Nat
  timestamp : Nat
  transactions : List Transaction
  proof : Nat
  previous_hash : String
deriving DecidableEq

/-- The genesis block created in `Blockchain.__init__`: index 0, timestamp 0,
no transactions, proof 100, empty previous hash. -/
def genesis_block : Block :=
  { index := 0, timestamp := 0, transactions := [], proof := 100, previous_hash := "" }

/-- Node state of the `Blockchain` class: chain identifier, open-transaction
pool, difficulty, public key and the chain itself. The peer set is not stored;
peer responses are passed to `resolve_conflicts` explicitly. -/
structure Blockchain where
  chain_identifier : String
  open_transactions : List Transaction
  difficulty : Nat
  public_key : String
  chain : List Block
deriving DecidableEq

/-- `Blockchain.__init__`: empty pool, the given parameters, and a chain holding
exactly the genesis block. -/
def Blockchain.init (public_key : String) (node_id : String) (difficulty : Nat := 4) :
    Blockchain :=
  { chain_identifier := node_id
    open_transactions := []
    difficulty := difficulty
    public_key := public_key
    chain := [genesis_block] }

/-- `last_block` property: `chain[-1]`. The chain is never empty in the source
(it always holds at least the genesis block); the default is never reached. -/
def Blockchain.last_block (bc : Blockchain) : Block :=
  bc.chain.getLastD genesis_block

/-- `next_index` property: `len(chain)`. -/
def Blockchain.next_index (bc : Blockchain) : Nat :=
  bc.chain.length

/-- Participant resolution at the top of `get_balance`: `if not sender` is the
Python falsy test, true for a missing argument and for the empty string; the
fallback is the node's public key, itself subject to the falsy test. -/
def resolve_participant (bc : Blockchain) (sender : Option String) : Option String :=
  match sender with
  | none => if bc.public_key = "" then none else some bc.public_key
  | some s =>
    if s = "" then (if bc.public_key = "" then none else some bc.public_key)
    else some s

/-- The `reduce` in `get_balance`: folds a list of per-source amount lists,
adding `sum(tx_amt)` when the list is non-empty and `0.0` otherwise. -/
def sum_reduce (ls : List (List Int)) : Int :=
  ls.foldl (fun tx_sum tx_amt => if 0 < tx_amt.length then tx_sum + tx_amt.sum else tx_sum + 0) 0

/-- The `tx_sender` list built in `get_balance`: per-block lists of amounts sent
by the participant, with the open-transaction amounts appended as one more list. -/
def sent_lists (bc : Blockchain) (participant : String) : List (List Int) :=
  (bc.chain.map fun block =>
    (block.transactions.filter fun tx => tx.sender = participant).map fun tx => tx.amount)
  ++ [(bc.open_transactions.filter fun tx => tx.sender = participant).map fun tx => tx.amount]

/-- The `tx_recipient` list built in `get_balance`: per-block lists of amounts
received by the participant (open transactions deliberately excluded). -/
def received_lists (bc : Blockchain) (participant : String) : List (List Int) :=
  bc.chain.map fun block =>
    (block.transactions.filter fun tx => tx.recipient = participant).map fun tx => tx.amount

/-- `Blockchain.get_balance`: resolves the participant (None when both the
sender argument and the public key are falsy), then returns received minus sent. -/
def Blockchain.get_balance (bc : Blockchain) (sender : Option String) : Option Int :=
  match resolve_participant bc sender with
  | none => none
  | some participant =>
    let amount_sent := sum_reduce (sent_lists bc participant)
    let amount_received := sum_reduce (received_lists bc participant)
    some (amount_received - amount_sent)

/-- Modelled from the spec: `Verification.verify_transaction` (verification.py is
not under src/). Fails unless `balance_of(tx.sender) >= tx.amount`; a balance of
None cannot satisfy the comparison. -/
def verify_transaction (tx : Transaction) (balance_of : String → Option Int) : Bool :=
  match balance_of tx.sender with
  | some b => tx.amount ≤ b
  | none => false

/-- `Blockchain.add_transaction`: admits the transaction into the pool when the
balance check passes and returns `last_block.index + 1`; otherwise the state is
unchanged and the insufficient-balance error is raised to the caller. -/
def Blockchain.add_transaction (bc : Blockchain) (tx : Transaction) :
    Blockchain × Except String Nat :=
  if verify_transaction tx (fun s => bc.get_balance (some s)) then
    ({ bc with open_transactions := bc.open_transactions ++ [tx] },
      .ok (bc.last_block.index + 1))
  else
    (bc, .error "The sender does not have enough coin to make this transaction.")

/-- The proof-of-work loop of `proof_of_work`: starting from nonce `p`, test
nonces in increasing order; `fuel` bounds the number of tests so the search is
total (the source loop is unbounded). -/
def pow_search (valid : Nat → Bool) : Nat → Nat → Option Nat
  | 0, _ => none
  | fuel + 1, p => if valid p then some p else pow_search valid fuel (p + 1)

/-- `Blockchain.proof_of_work`: hashes the last block and searches nonces
`0, 1, 2, …` until `valid_proof` succeeds over the open transactions. -/
def Blockchain.proof_of_work (hash_block : Block → String)
    (valid_proof : Nat → List Transaction → String → Nat → Bool)
    (bc : Blockchain) (difficulty : Nat) (fuel : Nat) : Option Nat :=
  let previous_hash := hash_block bc.last_block
  pow_search (fun p => valid_proof p bc.open_transactions previous_hash difficulty) fuel 0

/-- `Blockchain.mine_block`: no-op for a keyless node; otherwise run the
proof-of-work search, re-verify every snapshotted pool transaction through the
wallet (abort producing no block if any fails), append the reward transaction,
build the block, append it to the chain and clear the pool. `none` from the
bounded search stands for the source's still-running unbounded loop. -/
def Blockchain.mine_block (hash_block : Block → String)
    (valid_proof : Nat → List Transaction → String → Nat → Bool)
    (wallet_verify : Transaction → Bool)
    (bc : Blockchain) (now : Nat) (fuel : Nat) (difficulty : Option Nat := none) :
    Blockchain × Option Block :=
  if bc.public_key = "" then (bc, none)
  else
    let d := difficulty.getD bc.difficulty
    let previous_hash := hash_block bc.last_block
    match Blockchain.proof_of_work hash_block valid_proof bc d fuel with
    | none => (bc, none)
    | some proof =>
      let reward_transaction : Transaction :=
        { sender := "0", recipient := bc.public_key, amount := MINING_REWARD, signature := "" }
      let copied_open_transactions := bc.open_transactions
      if copied_open_transactions.all wallet_verify then
        let block : Block :=
          { index := bc.next_index
            timestamp := now
            transactions := copied_open_transactions ++ [reward_transaction]
            proof := proof
            previous_hash := previous_hash }
        ({ bc with chain := bc.chain ++ [block], open_transactions := [] }, some block)
      else (bc, none)

/-- The four-field structural comparison used by the reconciliation loop in
`add_block`. -/
def tx_match (opentx itx : Transaction) : Bool :=
  opentx.sender = itx.sender && opentx.recipient = itx.recipient
    && opentx.amount = itx.amount && opentx.signature = itx.signature

/-- Python `list.remove`: drop the first element structurally equal to `t`. The
source wraps the call in try/except, so a missing element is a no-op here. -/
def remove_first (pool : List Transaction) (t : Transaction) : List Transaction :=
  match pool with
  | [] => []
  | x :: rest => if x = t then rest else x :: remove_first rest t

/-- The pool reconciliation of `add_block`: for every block transaction, scan
the snapshot `stored_transactions` of the pool and, for each snapshot entry
matching it, remove the first structurally-equal entry from the live pool. -/
def reconcile (pool blockTxs : List Transaction) : List Transaction :=
  let stored_transactions := pool
  blockTxs.foldl
    (fun acc itx =>
      stored_transactions.foldl
        (fun acc2 opentx => if tx_match opentx itx then remove_first acc2 opentx else acc2)
        acc)
    pool

/-- `Blockchain.add_block`: check the proof over the transactions minus the
trailing reward at the fixed difficulty 4, then the previous-hash link; on
success append the block and reconcile the pool, otherwise return the tagged
failure with the state unchanged. -/
def Blockchain.add_block (hash_block : Block → String)
    (valid_proof : Nat → List Transaction → String → Nat → Bool)
    (bc : Blockchain) (block : Block) : Blockchain × Bool × String :=
  if ¬ (valid_proof block.proof block.transactions.dropLast block.previous_hash 4 = true) then
    (bc, false, "Proof is not valid")
  else if ¬ (hash_block bc.last_block = block.previous_hash) then
    (bc, false, "Hash of last block does not equal previous hash in the current block")
  else
    ({ bc with
        chain := bc.chain ++ [block]
        open_transactions := reconcile bc.open_transactions block.transactions },
      true, "success")

/-- Modelled from the spec: `Verification.verify_chain` (verification.py is not
under src/). For every i from 1 to the end, `chain[i].previous_hash` must equal
the hash of `chain[i-1]` and `valid_proof` must hold over `chain[i]`'s
transactions minus the last one at the fixed difficulty 4. -/
def verify_chain_from (hash_block : Block → String)
    (valid_proof : Nat → List Transaction → String → Nat → Bool)
    (prev : Block) : List Block → Bool
  | [] => true
  | b :: rest =>
    (b.previous_hash = hash_block prev)
      && valid_proof b.proof b.transactions.dropLast b.previous_hash 4
      && verify_chain_from hash_block valid_proof b rest

/-- Modelled from the spec: full-chain validity; the head block (genesis) is not
itself checked, each later block is checked against its predecessor. -/
def verify_chain (hash_block : Block → String)
    (valid_proof : Nat → List Transaction → String → Nat → Bool) :
    List Block → Bool
  | [] => true
  | b :: rest => verify_chain_from hash_block valid_proof b rest

/-- `Blockchain.resolve_conflicts`: fold over the peer responses (pairs of the
reported length and the fetched chain; unreachable and non-ok peers simply do
not appear), keeping the best candidate whose reported length exceeds the
best-known length and whose chain passes `verify_chain`; afterwards replace the
local chain when a candidate was kept. Python's `if new_chain:` is falsy both
for None and for an empty list, which the final test mirrors. -/
def resolve_step (hash_block : Block → String)
    (valid_proof : Nat → List Transaction → String → Nat → Bool)
    (acc : Nat × Option (List Block)) (resp : Nat × List Block) : Nat × Option (List Block) :=
  if acc.1 < resp.1 ∧ verify_chain hash_block valid_proof resp.2 = true then
    (resp.1, some resp.2)
  else acc

def Blockchain.resolve_conflicts (hash_block : Block → String)
    (valid_proof : Nat → List Transaction → String → Nat → Bool)
    (bc : Blockchain) (responses : List (Nat × List Block)) : Blockchain × Bool :=
  let result := responses.foldl (resolve_step hash_block valid_proof) (bc.chain.length, none)
  match result.2 with
  | some new_chain =>
    if new_chain.isEmpty then (bc, false) else ({ bc with chain := new_chain }, true)
  | none => (bc, false)

/-- The balance formula as the design document states it (§4.7): confirmed
receipts minus confirmed-and-pending spends; written from the spec's words to
be compared against `Blockchain.get_balance`. -/
def spec_balance (bc : Blockchain) (participant : String) : Int :=
  (bc.chain.map fun block =>
      ((block.transactions.filter fun tx => tx.recipient = participant).map
        fun tx => tx.amount).sum).sum
  - ((bc.chain.map fun block =>
        ((block.transactions.filter fun tx => tx.sender = participant).map
          fun tx => tx.amount).sum).sum
     + ((bc.open_transactions.filter fun tx => tx.sender = participant).map
          fun tx => tx.amount).sum)

/-! Concrete instantiations of the abstract collaborators and concrete node
states, used to evaluate the general theorems on explicit inputs. -/

/-- A constant block-hash function. -/
def hb0 : Block → String := fun _ => ""

/-- A proof predicate that accepts every nonce. -/
def vp0 : Nat → List Transaction → String → Nat → Bool := fun _ _ _ _ => true

/-- A proof predicate that rejects every nonce. -/
def vpF : Nat → List Transaction → String → Nat → Bool := fun _ _ _ _ => false

/-- A proof predicate whose smallest satisfying nonce is 2. -/
def vpW : Nat → List Transaction → String → Nat → Bool := fun p _ _ _ => decide (2 ≤ p)

/-- A wallet that accepts every signature. -/
def wv0 : Transaction → Bool := fun _ => true

/-- A wallet that rejects every signature. -/
def wvF : Transaction → Bool := fun _ => false

/-- A sample pending transaction. -/
def t0 : Transaction := { sender := "A", recipient := "B", amount := 1, signature := "s" }

/-- A sample successor block with no transactions. -/
def b1 : Block := { index := 1, timestamp := 0, transactions := [], proof := 0, previous_hash := "" }

/-- Another sample successor block. -/
def b2 : Block := { index := 2, timestamp := 0, transactions := [], proof := 0, previous_hash := "" }

/-- A fresh node. -/
def wbc : Blockchain := Blockchain.init "pk" "n" 4

/-- A node whose chain holds two blocks. -/
def bcC1 : Blockchain := { Blockchain.init "pk" "n" 4 with chain := [genesis_block, b1] }

/-- A three-block chain that passes `verify_chain` under `hb0` and `vp0`. -/
def wchain3 : List Block := [genesis_block, b1, b2]

/-- The block mined by `wbc` under `hb0`, `vp0`, `wv0` at time 7. -/
def wblk : Block :=
  { index := 1, timestamp := 7
    transactions := [{ sender := "0", recipient := "pk", amount := 1, signature := "" }]
    proof := 0, previous_hash := "" }

/-- The state of `wbc` after that mining step. -/
def wbc' : Blockchain := { wbc with chain := wbc.chain ++ [wblk] }

/-- A node holding two structurally-identical pending transactions. -/
def bcC5 : Blockchain := { Blockchain.init "pk" "n" 4 with open_transactions := [t0, t0] }

/-- A block containing `t0` once plus the trailing reward transaction. -/
def blkC5 : Block :=
  { index := 1, timestamp := 0
    transactions := [t0, { sender := "0", recipient := "pk", amount := 1, signature := "" }]
    proof := 0, previous_hash := "" }

/-- A node holding one pending transaction. -/
def bcW5 : Blockchain := { Blockchain.init "pk" "n" 4 with open_transactions := [t0] }

/-- A block containing `t0` once. -/
def blkW5 : Block :=
  { index := 1, timestamp := 0, transactions := [t0], proof := 0, previous_hash := "" }

/-- A confirmed transaction whose recipient is the empty string. -/
def txC3 : Transaction := { sender := "A", recipient := "", amount := 5, signature := "s" }

/-- A block holding `txC3`. -/
def blkC3 : Block :=
  { index := 1, timestamp := 0, transactions := [txC3], proof := 0, previous_hash := "" }

/-- A node whose chain contains a transaction addressed to the empty string. -/
def bcC3 : Blockchain := { Blockchain.init "X" "n" 4 with chain := [genesis_block, blkC3] }

/-- A keyless node. -/
def bcC10 : Blockchain := Blockchain.init "" "n" 4

/-! Helper lemmas. -/

theorem sum_reduce_eq (ls : List (List Int)) : sum_reduce ls = (ls.map List.sum).sum := by
  have h : ∀ (ls : List (List Int)) (s : Int),
      ls.foldl
        (fun tx_sum tx_amt => if 0 < tx_amt.length then tx_sum + tx_amt.sum else tx_sum + 0) s
        = s + (ls.map List.sum).sum := by
    intro ls
    induction ls with
    | nil => intro s; simp
    | cons l rest ih =>
      intro s
      simp only [List.foldl_cons, List.map_cons, List.sum_cons, ih]
      rcases l with _ | ⟨a, l⟩
      · simp
      · simp [add_assoc]
  simpa [sum_reduce] using h ls 0

theorem pow_search_min (valid : Nat → Bool) :
    ∀ (fuel p : Nat), (∃ k, k < fuel ∧ valid (p + k) = true) →
      ∃ m, pow_search valid fuel p = some m ∧ valid m = true ∧ p ≤ m
        ∧ ∀ j, p ≤ j → j < m → valid j = false := by
  intro fuel
  induction fuel with
  | zero =>
    rintro p ⟨k, hk, -⟩
    omega
  | succ fuel ih =>
    rintro p ⟨k, hk, hv⟩
    by_cases h0 : valid p = true
    · exact ⟨p, by simp [pow_search, h0], h0, le_refl p,
        fun j h1 h2 => absurd h1 (by omega)⟩
    · have hk0 : k ≠ 0 := by
        intro h
        subst h
        exact h0 hv
      have hv' : valid (p + 1 + (k - 1)) = true := by
        have hpk : p + 1 + (k - 1) = p + k := by omega
        rw [hpk]
        exact hv
      obtain ⟨m, hm, hvm, hle, hmin⟩ := ih (p + 1) ⟨k - 1, by omega, hv'⟩
      refine ⟨m, ?_, hvm, by omega, ?_⟩
      · simp [pow_search, h0]
        exact hm
      · intro j h1 h2
        rcases Nat.lt_or_ge j (p + 1) with hj | hj
        · have hje : j = p := by omega
          subst hje
          cases hvj : valid j
          · rfl
          · exact absurd hvj h0
        · exact hmin j hj h2

theorem tx_match_eq_true_iff (a b : Transaction) : tx_match a b = true ↔ a = b := by
  cases a
  cases b
  simp [tx_match, Transaction.mk.injEq, Bool.and_eq_true, decide_eq_true_eq, and_assoc]

theorem reconcile_inner (itx : Transaction) (stored : List Transaction) :
    ∀ (acc : List Transaction),
      stored.foldl
        (fun acc2 opentx => if tx_match opentx itx then remove_first acc2 opentx else acc2) acc
        = (fun l => remove_first l itx)^[stored.countP (fun opentx => tx_match opentx itx)] acc := by
  induction stored with
  | nil => intro acc; simp
  | cons x rest ih =>
    intro acc
    by_cases hx : tx_match x itx = true
    · have hxe : x = itx := (tx_match_eq_true_iff x itx).mp hx
      simp only [List.foldl_cons, List.countP_cons, hx, if_true, if_pos]
      rw [ih (remove_first acc x), hxe, Function.iterate_succ_apply]
    · simp only [List.foldl_cons, List.countP_cons, hx, if_false, if_neg]
      simp only [Bool.false_eq_true, if_false, Nat.add_zero]
      exact ih acc

theorem reconcile_eq (pool blockTxs : List Transaction) :
    reconcile pool blockTxs
      = blockTxs.foldl
          (fun acc itx =>
            (fun l => remove_first l itx)^[pool.countP (fun opentx => tx_match opentx itx)] acc)
          pool := by
  have h : (fun (acc : List Transaction) (itx : Transaction) =>
        pool.foldl
          (fun acc2 opentx => if tx_match opentx itx then remove_first acc2 opentx else acc2) acc)
      = fun acc itx =>
          (fun l => remove_first l itx)^[pool.countP (fun opentx => tx_match opentx itx)] acc := by
    funext acc itx
    exact reconcile_inner itx pool acc
  simp only [reconcile]
  rw [h]

theorem resolve_fold_inv (hash_block : Block → String)
    (valid_proof : Nat → List Transaction → String → Nat → Bool) (bc : Blockchain) :
    ∀ (responses : List (Nat × List Block)) (acc : Nat × Option (List Block)),
      (∀ r ∈ responses, (r.2 : List Block).length = r.1) →
      bc.chain.length ≤ acc.1 →
      (acc.2 = none → acc.1 = bc.chain.length) →
      (∀ c, acc.2 = some c → c.length = acc.1
         ∧ verify_chain hash_block valid_proof c = true ∧ bc.chain.length < acc.1) →
      bc.chain.length ≤ (responses.foldl (resolve_step hash_block valid_proof) acc).1
      ∧ ((responses.foldl (resolve_step hash_block valid_proof) acc).2 = none →
           (responses.foldl (resolve_step hash_block valid_proof) acc).1 = bc.chain.length)
      ∧ (∀ c, (responses.foldl (resolve_step hash_block valid_proof) acc).2 = some c →
           c.length = (responses.foldl (resolve_step hash_block valid_proof) acc).1
           ∧ verify_chain hash_block valid_proof c = true
           ∧ bc.chain.length < (responses.foldl (resolve_step hash_block valid_proof) acc).1) := by
  intro responses
  induction responses with
  | nil =>
    intro acc h hle hnone hsome
    exact ⟨hle, hnone, hsome⟩
  | cons resp rest ih =>
    intro acc h hle hnone hsome
    have hmem : (resp.2 : List Block).length = resp.1 := h resp (List.mem_cons_self _ _)
    rw [List.foldl_cons]
    by_cases hcond : acc.1 < resp.1 ∧ verify_chain hash_block valid_proof resp.2 = true
    · have hstep : resolve_step hash_block valid_proof acc resp = (resp.1, some resp.2) := by
        unfold resolve_step
        rw [if_pos hcond]
      rw [hstep]
      apply ih
      · intro r hr
        exact h r (List.mem_cons_of_mem _ hr)
      · exact le_of_lt (lt_of_le_of_lt hle hcond.1)
      · intro hn
        simp at hn
      · intro c hc
        have hce : resp.2 = c := by simpa using hc
        subst hce
        exact ⟨hmem, hcond.2, lt_of_le_of_lt hle hcond.1⟩
    · have hstep : resolve_step hash_block valid_proof acc resp = acc := by
        unfold resolve_step
        rw [if_neg hcond]
      rw [hstep]
      exact ih acc (fun r hr => h r (List.mem_cons_of_mem _ hr)) hle hnone hsome

/-! The claim theorems. -/

/-- C1 (amended): when every peer response's reported length equals the actual
length of the chain it carries, `resolve_conflicts` never decreases the local
chain length, any replacement chain passes `verify_chain` and is strictly longer
than the local chain, and the returned boolean is true exactly when a
replacement occurred (false leaves the state untouched). -/
theorem resolve_conflicts_monotone (hash_block : Block → String)
    (valid_proof : Nat → List Transaction → String → Nat → Bool)
    (bc : Blockchain) (responses : List (Nat × List Block))
    (htruth : ∀ r ∈ responses, (r.2 : List Block).length = r.1) :
    bc.chain.length
        ≤ (Blockchain.resolve_conflicts hash_block valid_proof bc responses).1.chain.length
    ∧ ((Blockchain.resolve_conflicts hash_block valid_proof bc responses).2 = true →
        verify_chain hash_block valid_proof
            (Blockchain.resolve_conflicts hash_block valid_proof bc responses).1.chain = true
        ∧ bc.chain.length
            < (Blockchain.resolve_conflicts hash_block valid_proof bc responses).1.chain.length)
    ∧ ((Blockchain.resolve_conflicts hash_block valid_proof bc responses).2 = false →
        (Blockchain.resolve_conflicts hash_block valid_proof bc responses).1 = bc) := by
  obtain ⟨hle, hnone, hsome⟩ := resolve_fold_inv hash_block valid_proof bc responses
      (bc.chain.length, none) htruth (le_refl _) (fun _ => rfl) (fun c hc => by simp at hc)
  have hrc : Blockchain.resolve_conflicts hash_block valid_proof bc responses
      = match (responses.foldl (resolve_step hash_block valid_proof) (bc.chain.length, none)).2 with
        | some new_chain =>
          if new_chain.isEmpty then (bc, false) else ({ bc with chain := new_chain }, true)
        | none => (bc, false) := rfl
  cases hf2 : (responses.foldl (resolve_step hash_block valid_proof) (bc.chain.length, none)).2 with
  | none =>
    rw [hf2] at hrc
    rw [hrc]
    exact ⟨le_refl _, fun hc => by simp at hc, fun _ => rfl⟩
  | some c =>
    obtain ⟨hclen, hcverify, hlt⟩ := hsome c hf2
    have hne : c.isEmpty = false := by
      cases c with
      | nil =>
        simp at hclen
        omega
      | cons x xs => rfl
    rw [hf2] at hrc
    simp [hne] at hrc
    constructor
    · rw [hrc]
      dsimp only
      omega
    constructor
    · intro hrep
      rw [hrc]
      dsimp only
      exact ⟨hcverify, by omega⟩
    · intro hfalse
      rw [hrc] at hfalse
      simp at hfalse

/-- C2: whenever `mine_block` returns a block on a node with a non-empty public
key, the pool is emptied, the chain grows by exactly that block (length plus
one), and the block's last transaction is the mining reward from sender "0" to
the node's public key with amount `MINING_REWARD`. -/
theorem mine_block_success (hash_block : Block → String)
    (valid_proof : Nat → List Transaction → String → Nat → Bool)
    (wallet_verify : Transaction → Bool)
    (bc bc' : Blockchain) (b : Block) (now fuel : Nat) (d : Option Nat)
    (hpk : bc.public_key ≠ "")
    (h : Blockchain.mine_block hash_block valid_proof wallet_verify bc now fuel d = (bc', some b)) :
    bc'.open_transactions = [] ∧ bc'.chain = bc.chain ++ [b]
    ∧ bc'.chain.length = bc.chain.length + 1
    ∧ b.transactions.getLast? =
        some { sender := "0", recipient := bc.public_key, amount := MINING_REWARD,
               signature := "" } := by
  simp only [Blockchain.mine_block] at h
  rw [if_neg hpk] at h
  split at h
  · simp at h
  · split at h
    · have h1 := congrArg Prod.fst h
      have h2 := congrArg Prod.snd h
      dsimp only at h1 h2
      obtain rfl := Option.some.inj h2
      subst h1
      refine ⟨rfl, rfl, ?_, ?_⟩
      · simp
      · exact List.getLast?_concat _
    · simp at h

/-- C7: `mine_block` is a no-op returning no block for a keyless node, and when
some snapshotted pool transaction fails the wallet's signature re-verification
the attempt aborts with the chain and pool exactly as before. -/
theorem mine_block_noop (hash_block : Block → String)
    (valid_proof : Nat → List Transaction → String → Nat → Bool)
    (wallet_verify : Transaction → Bool)
    (bc : Blockchain) (now fuel : Nat) (d : Option Nat) :
    (bc.public_key = "" →
        Blockchain.mine_block hash_block valid_proof wallet_verify bc now fuel d = (bc, none))
    ∧ ((∃ tx ∈ bc.open_transactions, wallet_verify tx = false) →
        Blockchain.mine_block hash_block valid_proof wallet_verify bc now fuel d = (bc, none)) := by
  constructor
  · intro hpk
    simp only [Blockchain.mine_block]
    rw [if_pos hpk]
  · rintro ⟨tx, htx, hwv⟩
    simp only [Blockchain.mine_block]
    by_cases hpk : bc.public_key = ""
    · rw [if_pos hpk]
    · rw [if_neg hpk]
      cases hpow : Blockchain.proof_of_work hash_block valid_proof bc (d.getD bc.difficulty) fuel with
      | none => rfl
      | some proof =>
        have hall : bc.open_transactions.all wallet_verify = false := by
          cases hall' : bc.open_transactions.all wallet_verify
          · rfl
          · have := List.all_eq_true.mp hall' tx htx
            rw [this] at hwv
            exact absurd hwv (by simp)
        simp [hall]

/-- C4: `add_block` appends the submitted block exactly when the proof check
over the transactions minus the trailing reward at the fixed difficulty 4 and
the previous-hash link both succeed; each failure returns its own tag with the
state untouched. -/
theorem add_block_validation (hash_block : Block → String)
    (valid_proof : Nat → List Transaction → String → Nat → Bool)
    (bc : Blockchain) (block : Block) :
    (valid_proof block.proof block.transactions.dropLast block.previous_hash 4 = false →
        Blockchain.add_block hash_block valid_proof bc block
          = (bc, false, "Proof is not valid"))
    ∧ (valid_proof block.proof block.transactions.dropLast block.previous_hash 4 = true →
        hash_block bc.last_block ≠ block.previous_hash →
        Blockchain.add_block hash_block valid_proof bc block
          = (bc, false, "Hash of last block does not equal previous hash in the current block"))
    ∧ (valid_proof block.proof block.transactions.dropLast block.previous_hash 4 = true →
        hash_block bc.last_block = block.previous_hash →
        Blockchain.add_block hash_block valid_proof bc block
          = ({ bc with
                chain := bc.chain ++ [block]
                open_transactions := reconcile bc.open_transactions block.transactions },
              true, "success")) := by
  refine ⟨fun h1 => ?_, fun h1 h2 => ?_, fun h1 h2 => ?_⟩
  · simp [Blockchain.add_block, h1]
  · simp [Blockchain.add_block, h1, h2]
  · simp [Blockchain.add_block, h1, h2]

/-- C5 (amended): on an accepted block, the pool reconciliation performs, for
each block transaction, one first-match removal from the live pool per
structurally-equal entry in the pool snapshot, so structurally-identical
duplicates in the pool are all removed rather than just one. -/
theorem add_block_reconciliation (hash_block : Block → String)
    (valid_proof : Nat → List Transaction → String → Nat → Bool)
    (bc : Blockchain) (block : Block)
    (h1 : valid_proof block.proof block.transactions.dropLast block.previous_hash 4 = true)
    (h2 : hash_block bc.last_block = block.previous_hash) :
    (Blockchain.add_block hash_block valid_proof bc block).1.open_transactions
      = block.transactions.foldl
          (fun acc itx =>
            (fun l => remove_first l itx)^[
              bc.open_transactions.countP (fun opentx => tx_match opentx itx)] acc)
          bc.open_transactions := by
  simp [Blockchain.add_block, h1, h2]
  exact reconcile_eq _ _

/-- C6: `add_transaction` rejects a transaction whose sender balance is below
its amount with the insufficient-balance error and an unchanged pool, and
admits (appends to the pool) any transaction passing the balance check. -/
theorem add_transaction_balance_check (bc : Blockchain) (tx : Transaction) (v : Int)
    (hb : bc.get_balance (some tx.sender) = some v) :
    (v < tx.amount →
        bc.add_transaction tx
          = (bc, .error "The sender does not have enough coin to make this transaction."))
    ∧ (tx.amount ≤ v →
        bc.add_transaction tx
          = ({ bc with open_transactions := bc.open_transactions ++ [tx] },
              .ok (bc.last_block.index + 1))) := by
  constructor
  · intro hlt
    simp [Blockchain.add_transaction, verify_transaction, hb, not_le.mpr hlt]
  · intro hge
    simp [Blockchain.add_transaction, verify_transaction, hb, hge]

/-- C3 (amended): for every non-empty participant string, `get_balance` returns
exactly the spec's formula: confirmed receipts minus confirmed-and-pending
spends, with pending receipts excluded. -/
theorem get_balance_formula (bc : Blockchain) (participant : String)
    (hp : participant ≠ "") :
    bc.get_balance (some participant) = some (spec_balance bc participant) := by
  simp only [Blockchain.get_balance, resolve_participant, if_neg hp]
  simp only [sum_reduce_eq, sent_lists, received_lists, spec_balance, List.map_append,
    List.sum_append, List.map_map, List.map_cons, List.map_nil, List.sum_cons, List.sum_nil,
    Function.comp_def]
  ring_nf

/-- C8: whenever some nonce satisfies `valid_proof` over the node's open
transactions and the last block's hash, the proof-of-work search (given enough
fuel to reach that nonce) terminates with the smallest satisfying nonce, every
smaller nonce having been tried and failed. -/
theorem proof_of_work_minimal (hash_block : Block → String)
    (valid_proof : Nat → List Transaction → String → Nat → Bool)
    (bc : Blockchain) (d n fuel : Nat)
    (hvalid : valid_proof n bc.open_transactions (hash_block bc.last_block) d = true)
    (hfuel : n < fuel) :
    ∃ m, Blockchain.proof_of_work hash_block valid_proof bc d fuel = some m
      ∧ valid_proof m bc.open_transactions (hash_block bc.last_block) d = true
      ∧ ∀ k < m, valid_proof k bc.open_transactions (hash_block bc.last_block) d = false := by
  obtain ⟨m, hm, hv, -, hmin⟩ :=
    pow_search_min (fun p => valid_proof p bc.open_transactions (hash_block bc.last_block) d)
      fuel 0 ⟨n, hfuel, by simpa using hvalid⟩
  exact ⟨m, hm, hv, fun k hk => hmin k (Nat.zero_le k) hk⟩

/-- C9: a freshly constructed node, for any public key, node id and difficulty,
has a chain of exactly one block — the genesis block with index 0, empty
previous hash, proof 100 and no transactions — and an empty pool. -/
theorem init_genesis (pk node_id : String) (d : Nat) :
    (Blockchain.init pk node_id d).chain = [genesis_block]
    ∧ (Blockchain.init pk node_id d).chain.length = 1
    ∧ genesis_block.index = 0
    ∧ genesis_block.previous_hash = ""
    ∧ genesis_block.proof = 100
    ∧ genesis_block.transactions = ([] : List Transaction)
    ∧ (Blockchain.init pk node_id d).open_transactions = [] :=
  ⟨rfl, rfl, rfl, rfl, rfl, rfl, rfl⟩

/-- C10 (amended): with an empty public key and no sender argument,
`get_balance` returns None; with a non-empty sender argument it always returns
a numeric balance, whatever the node's public key. -/
theorem get_balance_dispatch (bc : Blockchain) (s : String) :
    (bc.public_key = "" → bc.get_balance none = none)
    ∧ (s ≠ "" → ∃ v, bc.get_balance (some s) = some v) := by
  constructor
  · intro hpk
    simp [Blockchain.get_balance, resolve_participant, hpk]
  · intro hs
    refine ⟨sum_reduce (received_lists bc s) - sum_reduce (sent_lists bc s), ?_⟩
    simp [Blockchain.get_balance, resolve_participant, hs]

/-! Counterexamples and concrete witnesses. -/

/-- C1 counterexample: a peer that reports length 5 but delivers a valid
one-block chain makes `resolve_conflicts` replace a two-block local chain,
returning true while the local chain length drops from 2 to 1. -/
theorem resolve_conflicts_shrinks_chain_cex :
    (Blockchain.resolve_conflicts hb0 vp0 bcC1 [(5, [genesis_block])]).2 = true
    ∧ (Blockchain.resolve_conflicts hb0 vp0 bcC1 [(5, [genesis_block])]).1.chain.length
        < bcC1.chain.length := by
  constructor
  · rfl
  · decide

/-- C1 witness: a truthful peer offering a valid three-block chain to a
one-block node exercises `resolve_conflicts_monotone`. -/
theorem resolve_conflicts_monotone_witness :
    wbc.chain.length ≤ (Blockchain.resolve_conflicts hb0 vp0 wbc [(3, wchain3)]).1.chain.length
    ∧ ((Blockchain.resolve_conflicts hb0 vp0 wbc [(3, wchain3)]).2 = true →
        verify_chain hb0 vp0
            (Blockchain.resolve_conflicts hb0 vp0 wbc [(3, wchain3)]).1.chain = true
        ∧ wbc.chain.length
            < (Blockchain.resolve_conflicts hb0 vp0 wbc [(3, wchain3)]).1.chain.length)
    ∧ ((Blockchain.resolve_conflicts hb0 vp0 wbc [(3, wchain3)]).2 = false →
        (Blockchain.resolve_conflicts hb0 vp0 wbc [(3, wchain3)]).1 = wbc) :=
  resolve_conflicts_monotone hb0 vp0 wbc [(3, wchain3)] (by decide)

/-- C2 witness: mining on a fresh keyed node with permissive collaborators. -/
theorem mine_block_success_witness :
    wbc'.open_transactions = [] ∧ wbc'.chain = wbc.chain ++ [wblk]
    ∧ wbc'.chain.length = wbc.chain.length + 1
    ∧ wblk.transactions.getLast? =
        some { sender := "0", recipient := wbc.public_key, amount := MINING_REWARD,
               signature := "" } :=
  mine_block_success hb0 vp0 wv0 wbc wbc' wblk 7 1 none (by decide) (by decide)

/-- C7 witness: a node with one pending transaction and a rejecting wallet
aborts mining with the state untouched. -/
theorem mine_block_noop_witness :
    Blockchain.mine_block hb0 vp0 wvF bcW5 3 1 none = (bcW5, none) :=
  (mine_block_noop hb0 vp0 wvF bcW5 3 1 none).2 ⟨t0, by decide, rfl⟩

/-- C4 witness: a rejecting proof predicate yields the invalid-proof tag with
the state unchanged. -/
theorem add_block_validation_witness :
    Blockchain.add_block hb0 vpF wbc genesis_block = (wbc, false, "Proof is not valid") :=
  (add_block_validation hb0 vpF wbc genesis_block).1 rfl

/-- C5 counterexample: a pool holding two structurally-identical copies of a
transaction loses both of them when a block containing that transaction once is
accepted — the claim predicts the pool would still hold one copy. -/
theorem add_block_duplicate_removal_cex :
    (Blockchain.add_block hb0 vp0 bcC5 blkC5).1.open_transactions = ([] : List Transaction)
    ∧ (Blockchain.add_block hb0 vp0 bcC5 blkC5).1.open_transactions ≠ [t0] := by
  constructor
  · decide
  · decide

/-- C5 witness: accepting a block containing the single pending transaction. -/
theorem add_block_reconciliation_witness :
    (Blockchain.add_block hb0 vp0 bcW5 blkW5).1.open_transactions
      = blkW5.transactions.foldl
          (fun acc itx =>
            (fun l => remove_first l itx)^[
              bcW5.open_transactions.countP (fun opentx => tx_match opentx itx)] acc)
          bcW5.open_transactions :=
  add_block_reconciliation hb0 vp0 bcW5 blkW5 rfl rfl

/-- C6 witness: the concrete scenario of the design document — sender balance
0, amount 1 — is rejected with the pool unchanged. -/
theorem add_transaction_balance_check_witness :
    wbc.add_transaction t0
      = (wbc, .error "The sender does not have enough coin to make this transaction.") :=
  (add_transaction_balance_check wbc t0 0 (by decide)).1 (by decide)

/-- C3 counterexample: with the empty string as participant, `get_balance`
silently computes the node's own balance (0 here) instead of the spec formula's
value for the empty-string participant (5 here). -/
theorem get_balance_empty_participant_cex :
    Blockchain.get_balance bcC3 (some "") = some 0
    ∧ spec_balance bcC3 "" = 5
    ∧ Blockchain.get_balance bcC3 (some "") ≠ some (spec_balance bcC3 "") := by
  refine ⟨by decide, by decide, by decide⟩

/-- C3 witness: the formula evaluated for participant "A" on a chain holding
one of A's transactions. -/
theorem get_balance_formula_witness :
    Blockchain.get_balance bcC3 (some "A") = some (spec_balance bcC3 "A") :=
  get_balance_formula bcC3 "A" (by decide)

/-- C8 witness: with a predicate first satisfied at nonce 2 and fuel 3, the
search returns 2 and every smaller nonce fails. -/
theorem proof_of_work_minimal_witness :
    ∃ m, Blockchain.proof_of_work hb0 vpW wbc 4 3 = some m
      ∧ vpW m wbc.open_transactions (hb0 wbc.last_block) 4 = true
      ∧ ∀ k < m, vpW k wbc.open_transactions (hb0 wbc.last_block) 4 = false :=
  proof_of_work_minimal hb0 vpW wbc 4 2 3 (by decide) (by decide)

/-- C10 counterexample: on a keyless node the empty string as the sender
argument falls into the Python falsy branch and yields None, not a number. -/
theorem get_balance_empty_sender_cex :
    Blockchain.get_balance bcC10 (some "") = none := by decide

/-- C10 witness: keyless node — no sender gives None, a non-empty sender gives
a numeric balance. -/
theorem get_balance_dispatch_witness :
    Blockchain.get_balance bcC10 none = none
    ∧ ∃ v, Blockchain.get_balance bcC10 (some "A") = some v :=
  ⟨(get_balance_dispatch bcC10 "A").1 rfl, (get_balance_dispatch bcC10 "A").2 (by decide)⟩
